import Mathlib

/-!
# hmpssh: the connection store, its list view, the backup name and the connector

A shallow embedding of `src/main.go`.  Go strings are modelled as lists of
Unicode code points (`Str`, well-formed UTF-8 assumed); the standard-library functions the program calls
(`strings.TrimSpace`, `strings.Split`, `strconv.Atoi`, `fmt.Sscanf` with `%d`,
`time.Format`) are modelled from their Go semantics.  The config file is
explicit state (its content, a `Str`); failures of the file system and of
external tools are inputs of the model (`FileEnv`, `AgentEnv`).
-/

namespace Hmpssh

/-- A Go string, as the list of its code points. -/
abbrev Str := List Char

/-! ## Standard-library functions used by the program -/

/-- Go `unicode.IsSpace`: the Latin-1 cases `\t \n \v \f \r`, space, U+0085,
U+00A0, and the other code points of the `White_Space` property. -/
def isSpace (c : Char) : Bool :=
  let n := c.toNat
  (9 ≤ n && n ≤ 13) || n == 32 || n == 133 || n == 160 || n == 5760 ||
  (8192 ≤ n && n ≤ 8202) || n == 8232 || n == 8233 || n == 8239 || n == 8287 ||
  n == 12288

/-- Go `strings.TrimSpace`: drop leading, then trailing, white space. -/
def trimSpace (s : Str) : Str :=
  (s.dropWhile isSpace).rdropWhile isSpace

/-- Go `strings.Split(s, sep)` for a one-character separator (every call in
`main.go` has one): the pieces between separators; one more piece than there
are separators, so the empty string gives one empty piece. -/
def split (sep : Char) : Str → List Str
  | [] => [[]]
  | c :: cs =>
    if c = sep then [] :: split sep cs
    else match split sep cs with
      | [] => [[c]]
      | p :: ps => (c :: p) :: ps

/-- Go `strings.Join(elems, sep)`. -/
def join (sep : Str) : List Str → Str
  | [] => []
  | [a] => a
  | a :: b :: rest => a ++ sep ++ join sep (b :: rest)

/-- Go `len(s)` of a string: its length in bytes of UTF-8. -/
def byteLen (s : Str) : Nat :=
  (s.map Char.utf8Size).sum

/-- An ASCII decimal digit. -/
def isDigit (c : Char) : Bool :=
  48 ≤ c.toNat && c.toNat ≤ 57

/-- The value of a run of decimal digits, most significant first. -/
def digitsValue (s : Str) : Nat :=
  s.foldl (fun n c => n * 10 + (c.toNat - 48)) 0

/-- An optional sign followed by one or more decimal digits, read as an
integer that must fit Go's 64-bit `int`: the strings on which both
`strconv.Atoi` and `strconv.ParseInt(_, 10, 64)` succeed. -/
def parseSigned (s : Str) : Option Int :=
  let neg := s.head? == some '-'
  let body := if s.head? == some '-' || s.head? == some '+' then s.tail else s
  if body.isEmpty || !body.all isDigit then none
  else
    let v : Int := if neg then -(digitsValue body : Int) else (digitsValue body : Int)
    if -(2 ^ 63 : Int) ≤ v ∧ v < (2 ^ 63 : Int) then some v else none

/-- Go `strconv.Atoi`: `none` is a non-nil error. -/
def atoi (s : Str) : Option Int :=
  parseSigned s

/-- The result of `fmt.Sscanf(s, "%d", &index)` on an `index` that holds
`init`: leading spaces are skipped (a newline is an error), then an optional
sign and the longest run of digits are read, what follows is left unread; when
the scan fails `index` keeps `init`. -/
def sscanfInt (s : Str) (init : Int) : Int :=
  let t := s.dropWhile (fun c => isSpace c && c != '\n')
  let sign : Str := match t with
    | '-' :: _ => ['-']
    | '+' :: _ => ['+']
    | _ => []
  let rest := t.drop sign.length
  match parseSigned (sign ++ rest.takeWhile isDigit) with
  | some v => v
  | none => init

/-- The pass of Go `filepath.Clean` over the elements of a path: empty
elements and `.` are dropped, `..` removes the element before it, is kept when
there is none to remove in a relative path and is dropped at the root; `out`
is the result so far, last element first. -/
def cleanElems (rooted : Bool) : List Str → List Str → List Str
  | [], out => out.reverse
  | e :: es, out =>
    if e = [] ∨ e = ['.'] then cleanElems rooted es out
    else if e = ['.', '.'] then
      match out with
      | q :: qs =>
        if q = ['.', '.'] then cleanElems rooted es (e :: out)
        else cleanElems rooted es qs
      | [] => if rooted then cleanElems rooted es [] else cleanElems rooted es [e]
    else cleanElems rooted es (e :: out)

/-- Go `filepath.Clean` with `/` as the separator. -/
def clean (path : Str) : Str :=
  if path = [] then ['.']
  else
    let rooted := path.head? == some '/'
    let body := join ['/'] (cleanElems rooted (split '/' path) [])
    if rooted then '/' :: body
    else if body = [] then ['.'] else body

/-- Go `filepath.Join`: the elements from the first non-empty one on, joined
with the separator and cleaned; the empty string when all are empty. -/
def filepathJoin (elems : List Str) : Str :=
  match elems.dropWhile (fun e => e.isEmpty) with
  | [] => []
  | rest => clean (join ['/'] rest)

/-- Go `strings.Contains`. -/
def contains (s sub : Str) : Bool :=
  decide (sub <:+: s)

/-- The decimal digit character of `n < 10` (Go `byte('0' + n)`). -/
def digitChar (n : Nat) : Char :=
  Char.ofNat (48 + n)

/-- Go `time.appendInt` for a non-negative value: decimal, zero-padded to
`width`, with the two fast paths of the library for widths 2 and 4. -/
def appendInt (x width : Nat) : Str :=
  if width = 2 ∧ x < 100 then [digitChar (x / 10), digitChar (x % 10)]
  else if width = 4 ∧ x < 10000 then
    [digitChar (x / 100 / 10), digitChar (x / 100 % 10),
     digitChar (x % 100 / 10), digitChar (x % 100 % 10)]
  else
    let ds := Nat.toDigits 10 x
    List.replicate (width - ds.length) '0' ++ ds

/-! ## State and environment -/

/-- What the file system answers: whether `os.ReadFile`, `os.OpenFile` and the
write (`WriteString`, `Truncate`) on the config file succeed. -/
structure FileEnv where
  readOk : Bool
  openOk : Bool
  writeOk : Bool
  deriving DecidableEq, Repr

/-- What the key agent's tools answer: the value of `SSH_AUTH_SOCK`, the
output of `ssh-agent -s` (or its error), the error of `ssh-add` if any. -/
structure AgentEnv where
  authSock : Str
  agentOutput : Str ⊕ Str
  sshAddErr : Option Str

/-- The wall-clock fields of `time.Now()` in local time. -/
structure Time where
  year : Nat
  month : Nat
  day : Nat
  hour : Nat
  minute : Nat
  second : Nat
  deriving DecidableEq, Repr

/-- The fields of a clock reading are in their calendar ranges and the year
has at most four digits. -/
def Time.valid (t : Time) : Prop :=
  t.year ≤ 9999 ∧ 1 ≤ t.month ∧ t.month ≤ 12 ∧ 1 ≤ t.day ∧ t.day ≤ 31 ∧
  t.hour ≤ 23 ∧ t.minute ≤ 59 ∧ t.second ≤ 59

instance (t : Time) : Decidable t.valid := by
  unfold Time.valid; infer_instance

/-! ## Paths (main.go 30-35) -/

/-- The variable `configFile`, from the home directory `os.UserHomeDir()` gives. -/
def configFile (homeDir : Str) : Str :=
  filepathJoin [homeDir, ".ssh".toList, "connections.conf".toList]

/-- The variable `sshKey`. -/
def sshKey (homeDir : Str) : Str :=
  filepathJoin [homeDir, ".ssh".toList, "id_rsa".toList]

/-- The variable `backupDir`. -/
def backupDir (homeDir : Str) : Str :=
  filepathJoin [homeDir, "ssh_backup".toList]

/-! ## backupConfig (main.go 56-74) -/

/-- Go `time.Now().Format("20060102_150405")`: the layout is the four-digit
year, two-digit month and day, a literal underscore, two-digit hour, minute
and second. -/
def formatTimestamp (t : Time) : Str :=
  appendInt t.year 4 ++ appendInt t.month 2 ++ appendInt t.day 2 ++ ['_'] ++
  appendInt t.hour 2 ++ appendInt t.minute 2 ++ appendInt t.second 2

/-- The `backupFile` of `backupConfig`:
`filepath.Join(backupDir, fmt.Sprintf("ssh_config_backup_%s.tar.gz", timestamp))`. -/
def backupFile (homeDir : Str) (t : Time) : Str :=
  filepathJoin [backupDir homeDir,
    "ssh_config_backup_".toList ++ formatTimestamp t ++ ".tar.gz".toList]

/-- The status line `backupConfig` ends with. -/
inductive BackupOutcome
  | failed
  | successful
  deriving DecidableEq, Repr

/-- The function `backupConfig`: the arguments it gives `tar` and its status,
`tarOk` being whether `tar` exits with success. -/
def backupConfig (homeDir : Str) (t : Time) (tarOk : Bool) :
    List Str × BackupOutcome :=
  let args := ["-czf".toList, backupFile homeDir t, "-C".toList,
    filepathJoin [homeDir, ".ssh".toList], "connections.conf".toList,
    "id_rsa".toList, "id_rsa.pub".toList]
  (args, if tarOk then .successful else .failed)

/-! ## addConnection (main.go 76-137) -/

/-- The status line `addConnection` prints for the part that touches the
config file. -/
inductive AddOutcome
  | nameEmpty
  | userEmpty
  | hostEmpty
  | invalidPort
  | openFailed
  | saveFailed
  | added
  deriving DecidableEq, Repr

/-- The four status lines of `addConnection` that reject the input itself. -/
def AddOutcome.isValidationError : AddOutcome → Bool
  | .nameEmpty | .userEmpty | .hostEmpty | .invalidPort => true
  | _ => false

/-- The port `addConnection` stores for a port line, `none` for
"Invalid port number" (main.go 108-119). -/
def portOf (portLine : Str) : Option Str :=
  let portInput := trimSpace portLine
  if portInput ≠ [] then
    if (atoi portInput).isNone || byteLen portInput > 5 then none
    else some portInput
  else some "22".toList

/-- The function `addConnection` up to "Connection added successfully": the
four lines read from the terminal, the status line, and the content of the
config file afterwards.  The optional key set-up that follows (main.go
139-169) runs external tools only and does not touch the config file. -/
def addConnection (env : FileEnv) (file : Str) (nameLine userLine hostLine portLine : Str) :
    AddOutcome × Str :=
  let name := trimSpace nameLine
  if name = [] then (.nameEmpty, file)
  else
    let user := trimSpace userLine
    if user = [] then (.userEmpty, file)
    else
      let host := trimSpace hostLine
      if host = [] then (.hostEmpty, file)
      else
        match portOf portLine with
        | none => (.invalidPort, file)
        | some port =>
          let newConnection := name ++ ['|'] ++ user ++ ['|'] ++ host ++ ['|'] ++ port
          if !env.openOk then (.openFailed, file)
          else if !env.writeOk then (.saveFailed, file)
          else (.added, file ++ (newConnection ++ ['\n']))

/-! ## Loading the store (main.go 179-183, 237-241, 333-337) -/

/-- The `connections` slice: `strings.Split(strings.TrimSpace(string(data)), "\n")`. -/
def loadConnections (data : Str) : List Str :=
  split '\n' (trimSpace data)

/-- The guard `len(connections) == 0 || connections[0] == ""`. -/
def storeEmpty : List Str → Bool
  | [] => true
  | c :: _ => c.isEmpty

/-- The records the three readers work on: the lines of the store split on
`|`, and none when the guard reports an empty store. -/
def loadRecords (data : Str) : List (List Str) :=
  if storeEmpty (loadConnections data) then []
  else (loadConnections data).map (split '|')

/-- The index read from the choice line:
`index := -1; fmt.Sscanf(strings.TrimSpace(line), "%d", &index)`. -/
def choiceIndex (choiceLine : Str) : Int :=
  sscanfInt (trimSpace choiceLine) (-1)

/-! ## deleteConnection (main.go 172-226) -/

/-- The status line `deleteConnection` ends with. -/
inductive DeleteOutcome
  | readFailed
  | noConnections
  | invalidSelection
  | openFailed
  | updateFailed
  | deleted
  deriving DecidableEq, Repr

/-- The function `deleteConnection`: the status line and the content of the
config file afterwards.  Opening with `O_TRUNC` empties the file before the
remaining lines are written. -/
def deleteConnection (env : FileEnv) (file : Str) (choiceLine : Str) :
    DeleteOutcome × Str :=
  if !env.readOk then (.readFailed, file)
  else
    let connections := loadConnections file
    if storeEmpty connections then (.noConnections, file)
    else
      let index := choiceIndex choiceLine
      if index < 0 ∨ index ≥ (connections.length : Int) then (.invalidSelection, file)
      else
        let remaining := connections.take index.toNat ++ connections.drop (index.toNat + 1)
        if !env.openOk then (.openFailed, file)
        else if !env.writeOk then (.updateFailed, [])
        else if remaining.length > 0 then (.deleted, join ['\n'] remaining ++ ['\n'])
        else (.deleted, [])

/-! ## listConnections (main.go 228-289) -/

/-- The width used by the list view: the one `term.GetSize` reports, or 80
when it fails (`none`). -/
def termWidth (size : Option Int) : Int :=
  match size with
  | some width => width
  | none => 80

/-- The column width `baseColWidth + borderPadding`. -/
def colWidth : Int := 30 + 2

/-- The `switch` that sets `numCols` from the terminal width. -/
def numCols (width : Int) : Nat :=
  if width ≥ colWidth * 3 then 3
  else if width ≥ colWidth * 2 then 2
  else 1

/-- The text of one cell, `strings.Join(connInfo, "\n")`, for a record of at
least four fields; styles add no text. -/
def cellText (parts : List Str) : Str :=
  join ['\n'] ["Name: ".toList ++ parts.getD 0 [], "User: ".toList ++ parts.getD 1 [],
    "Host: ".toList ++ parts.getD 2 [] ++ [':'] ++ parts.getD 3 []]

/-- The inner loop `for j := 0; j < numCols && (i+j) < len(connections); j++`,
started at `j` with the cells collected so far. -/
def rowLoop (connections : List Str) (cols i : Nat) : Nat → Nat → List Str → List Str
  | 0, _, rowCols => rowCols
  | fuel + 1, j, rowCols =>
    if j < cols ∧ i + j < connections.length then
      let parts := split '|' (connections.getD (i + j) [])
      rowLoop connections cols i fuel (j + 1)
        (if parts.length ≥ 4 then rowCols ++ [cellText parts] else rowCols)
    else rowCols

/-- The outer loop `for i := 0; i < len(connections); i += numCols`, started
at `i` with the rows collected so far; a row is the list of its cells. -/
def rowsLoop (connections : List Str) (cols : Nat) : Nat → Nat → List (List Str) → List (List Str)
  | 0, _, rows => rows
  | fuel + 1, i, rows =>
    if i < connections.length then
      let rowCols := rowLoop connections cols i cols 0 []
      rowsLoop connections cols fuel (i + cols)
        (if rowCols.length > 0 then rows ++ [rowCols] else rows)
    else rows

/-- What `listConnections` shows below the banner. -/
inductive ListOutcome
  | readFailed
  | noConnections
  | rendered (widthWarning : Bool) (rows : List (List Str))
  deriving DecidableEq, Repr

/-- The rows handed to `lipgloss.JoinVertical`, none when nothing is drawn. -/
def ListOutcome.rows : ListOutcome → List (List Str)
  | .rendered _ rows => rows
  | _ => []

/-- The function `listConnections`: `size` is the width `term.GetSize` reports,
`none` when it fails. -/
def listConnections (env : FileEnv) (file : Str) (size : Option Int) : ListOutcome :=
  if !env.readOk then .readFailed
  else
    let connections := loadConnections file
    if storeEmpty connections then .noConnections
    else
      let cols := numCols (termWidth size)
      .rendered size.isNone (rowsLoop connections cols connections.length 0 [])

/-! ## startSSHAgent and connectToServer (main.go 291-385) -/

/-- The value `startSSHAgent` sets `SSH_AUTH_SOCK` to from one `;`-separated
part of the agent's output, `sock` when it sets none. -/
def sockFromPart (sock part : Str) : Str :=
  if contains part "SSH_AUTH_SOCK".toList then
    match split '=' part with
    | [_, v] => trimSpace v
    | _ => sock
  else sock

/-- The scan of the output of `ssh-agent -s`, line by line. -/
def sockFromOutput (sock output : Str) : Str :=
  (split '\n' output).foldl
    (fun acc line =>
      if contains line "SSH_AUTH_SOCK".toList then (split ';' line).foldl sockFromPart acc
      else acc)
    sock

/-- The function `startSSHAgent`: its error, if any, and the value of
`SSH_AUTH_SOCK` afterwards. -/
def startSSHAgent (env : AgentEnv) : Option Str × Str :=
  let started : Option Str × Str :=
    if env.authSock = [] then
      match env.agentOutput with
      | .inl err => (some ("failed to start ssh-agent: ".toList ++ err), env.authSock)
      | .inr output => (none, sockFromOutput env.authSock output)
    else (none, env.authSock)
  match started with
  | (some err, sock) => (some err, sock)
  | (none, sock) =>
    match env.sshAddErr with
    | some err =>
      if !contains err "already".toList then
        (some ("failed to add SSH key to agent: ".toList ++ err), sock)
      else (none, sock)
    | none => (none, sock)

/-- What `connectToServer` does after the choice. -/
inductive ConnectOutcome
  | noConnections
  | agentFailed (err : Str)
  | invalidSelection
  | skipped
  | ran (args : List Str) (ok : Bool)
  deriving DecidableEq, Repr

/-- The arguments of the `ssh` client that was launched, if one was. -/
def ConnectOutcome.launched : ConnectOutcome → Option (List Str)
  | .ran args _ => some args
  | _ => none

/-- The function `connectToServer`: `homeDir` is the home directory the key
path is built from, `sshOk` whether the `ssh` client exits with success.  A read error of the config file is
ignored by the code and leaves the data empty; a record with fewer than three
fields is skipped silently. -/
def connectToServer (homeDir : Str) (env : FileEnv) (agent : AgentEnv) (file : Str)
    (choiceLine : Str) (sshOk : Bool) : ConnectOutcome :=
  let data := if env.readOk then file else []
  let connections := loadConnections data
  if storeEmpty connections then .noConnections
  else
    match (startSSHAgent agent).1 with
    | some err => .agentFailed err
    | none =>
      let index := choiceIndex choiceLine
      if index < 0 ∨ index ≥ (connections.length : Int) then .invalidSelection
      else
        let parts := split '|' (connections.getD index.toNat [])
        if parts.length ≥ 3 then
          let user := parts.getD 1 []
          let host := parts.getD 2 []
          let port := if parts.length ≥ 4 then parts.getD 3 [] else "22".toList
          .ran ["-i".toList, sshKey homeDir, "-p".toList, port, user ++ ['@'] ++ host] sshOk
        else .skipped

/-! ## Records and repeated Add -/

/-- A connection record, the four fields of a line `name|user|host|port`. -/
structure Record where
  name : Str
  user : Str
  host : Str
  port : Str
  deriving DecidableEq, Repr

/-- The fields of a record, in the order of its line. -/
def Record.fields (r : Record) : List Str :=
  [r.name, r.user, r.host, r.port]

/-- The config file after `addConnection` has run once per record, each time
on the four fields of the record as the lines typed. -/
def addAll (env : FileEnv) (file : Str) : List Record → Str
  | [] => file
  | r :: rs => addAll env (addConnection env file r.name r.user r.host r.port).2 rs

/-- A text field that is non-empty, already trimmed, and holds neither the
delimiter nor a newline. -/
def fieldOk (s : Str) : Prop :=
  s ≠ [] ∧ trimSpace s = s ∧ '|' ∉ s ∧ '\n' ∉ s

/-- A port of one to five ASCII digits. -/
def portOk (p : Str) : Prop :=
  1 ≤ p.length ∧ p.length ≤ 5 ∧ ∀ c ∈ p, isDigit c = true

/-- A record whose three text fields and port are as above. -/
def Record.wellFormed (r : Record) : Prop :=
  fieldOk r.name ∧ fieldOk r.user ∧ fieldOk r.host ∧ portOk r.port

instance (s : Str) : Decidable (fieldOk s) := by
  unfold fieldOk; infer_instance

instance (p : Str) : Decidable (portOk p) := by
  unfold portOk; infer_instance

instance (r : Record) : Decidable r.wellFormed := by
  unfold Record.wellFormed; infer_instance

/-! ## Lemmas on the string functions -/

theorem trimSpace_eq_nil_iff (s : Str) : trimSpace s = [] ↔ ∀ c ∈ s, isSpace c = true := by
  unfold trimSpace
  rw [List.rdropWhile_eq_nil_iff]
  constructor
  · intro h
    have h2 : s.dropWhile isSpace = [] := by
      cases hd : s.dropWhile isSpace with
      | nil => rfl
      | cons a l =>
        have hne : s.dropWhile isSpace ≠ [] := by simp [hd]
        have h1 := List.head_dropWhile_not isSpace s hne
        have h3 := h ((s.dropWhile isSpace).head hne) (List.head_mem hne)
        simp [h3] at h1
    simpa using h2
  · intro h c hc
    exact h c ((List.dropWhile_suffix isSpace).subset hc)

theorem trimSpace_subset (s : Str) : trimSpace s ⊆ s := by
  unfold trimSpace
  intro c hc
  exact (List.dropWhile_suffix isSpace).subset ((List.rdropWhile_prefix isSpace _).subset hc)

theorem trimSpace_head_not_space (s : Str) (c : Char) (r : Str) (h : trimSpace s = c :: r) :
    isSpace c = false := by
  unfold trimSpace at h
  have hne : s.dropWhile isSpace ≠ [] := by
    intro h0; rw [h0] at h; simp at h
  have h1 := List.head_dropWhile_not isSpace s hne
  have hp := List.rdropWhile_prefix isSpace (s.dropWhile isSpace)
  rw [h] at hp
  obtain ⟨t, ht⟩ := hp
  have : (s.dropWhile isSpace).head hne = c := by
    simp [← ht]
  rw [this] at h1
  simpa using h1

theorem split_ne_nil (sep : Char) (s : Str) : split sep s ≠ [] := by
  cases s with
  | nil => simp [split]
  | cons c cs =>
    unfold split
    split_ifs
    · simp
    · cases split sep cs <;> simp

theorem split_cons_sep (sep : Char) (cs : Str) : split sep (sep :: cs) = [] :: split sep cs := by
  simp [split]

theorem split_cons_ne (sep c : Char) (cs : Str) (h : c ≠ sep) :
    split sep (c :: cs) = (c :: (split sep cs).headD []) :: (split sep cs).tail := by
  have hne := split_ne_nil sep cs
  rw [split, if_neg h]
  cases hs : split sep cs with
  | nil => exact absurd hs hne
  | cons p ps => simp

theorem split_append_sep (sep : Char) (l r : Str) (h : sep ∉ l) :
    split sep (l ++ sep :: r) = l :: split sep r := by
  induction l with
  | nil => simp [split_cons_sep]
  | cons c cs ih =>
    have hc : c ≠ sep := fun e => h (by simp [e])
    have hcs : sep ∉ cs := fun e => h (by simp [e])
    rw [List.cons_append, split_cons_ne sep c _ hc, ih hcs]
    simp

theorem split_no_sep (sep : Char) (l : Str) (h : sep ∉ l) : split sep l = [l] := by
  induction l with
  | nil => simp [split]
  | cons c cs ih =>
    have hc : c ≠ sep := fun e => h (by simp [e])
    have hcs : sep ∉ cs := fun e => h (by simp [e])
    rw [split_cons_ne sep c _ hc, ih hcs]
    simp

theorem not_mem_of_mem_split (sep : Char) (s p : Str) (hp : p ∈ split sep s) : sep ∉ p := by
  induction s generalizing p with
  | nil =>
    simp [split] at hp
    simp [hp]
  | cons c cs ih =>
    by_cases hc : c = sep
    · subst hc
      rw [split_cons_sep] at hp
      rcases List.mem_cons.mp hp with h | h
      · simp [h]
      · exact ih p h
    · have hne := split_ne_nil sep cs
      rw [split_cons_ne sep c _ hc] at hp
      cases hs : split sep cs with
      | nil => exact absurd hs hne
      | cons q qs =>
        rw [hs] at hp ih
        simp only [List.headD_cons, List.tail_cons, List.mem_cons] at hp
        rcases hp with h | h
        · subst h
          have hq := ih q (by simp)
          intro hm
          rcases List.mem_cons.mp hm with e | e
          · exact hc e.symm
          · exact hq e
        · exact ih p (by simp [h])

theorem length_split (sep : Char) (s : Str) : (split sep s).length = s.count sep + 1 := by
  induction s with
  | nil => simp [split]
  | cons c cs ih =>
    by_cases hc : c = sep
    · subst hc
      rw [split_cons_sep]
      simp [ih]
    · have hne := split_ne_nil sep cs
      rw [split_cons_ne sep c _ hc]
      have hcnt : (c :: cs).count sep = cs.count sep := by
        rw [List.count_cons]
        simp [hc]
      rw [hcnt, ← ih]
      cases hs : split sep cs with
      | nil => exact absurd hs hne
      | cons q qs => simp

theorem join_cons_of_ne_nil (sep a : Str) (ls : List Str) (h : ls ≠ []) :
    join sep (a :: ls) = a ++ sep ++ join sep ls := by
  cases ls with
  | nil => exact absurd rfl h
  | cons b rest => rfl

theorem join_split (sep : Char) (s : Str) : join [sep] (split sep s) = s := by
  induction s with
  | nil => simp [split, join]
  | cons c cs ih =>
    by_cases hc : c = sep
    · subst hc
      rw [split_cons_sep, join_cons_of_ne_nil _ _ _ (split_ne_nil _ _), ih]
      simp
    · have hne := split_ne_nil sep cs
      rw [split_cons_ne sep c _ hc]
      cases hs : split sep cs with
      | nil => exact absurd hs hne
      | cons q qs =>
        rw [hs] at ih
        simp only [List.headD_cons, List.tail_cons]
        cases qs with
        | nil =>
          simp only [join] at ih ⊢
          rw [ih]
        | cons q2 qs2 =>
          simp only [join] at ih ⊢
          rw [← ih]
          simp

theorem split_join (sep : Char) (ls : List Str) (hls : ls ≠ []) (h : ∀ l ∈ ls, sep ∉ l) :
    split sep (join [sep] ls) = ls := by
  induction ls with
  | nil => exact absurd rfl hls
  | cons a rest ih =>
    cases rest with
    | nil =>
      simp only [join]
      exact split_no_sep sep a (h a (by simp))
    | cons b rest2 =>
      rw [join_cons_of_ne_nil _ _ _ (by simp)]
      have := split_append_sep sep a (join [sep] (b :: rest2)) (h a (by simp))
      simp only [List.append_assoc, List.singleton_append]
      rw [this, ih (by simp) (fun l hl => h l (by simp [hl]))]

theorem isDigit_not_space (c : Char) (h : isDigit c = true) : isSpace c = false := by
  simp only [isDigit, Bool.and_eq_true, decide_eq_true_eq] at h
  simp only [isSpace, Bool.or_eq_false_iff, Bool.and_eq_false_iff, decide_eq_false_iff_not,
    beq_eq_false_iff_ne]
  omega

theorem trimSpace_eq_self_of_ends (s : Str)
    (hh : ∀ c ∈ s.head?, isSpace c = false) (hl : ∀ c ∈ s.getLast?, isSpace c = false) :
    trimSpace s = s := by
  have h1 : s.dropWhile isSpace = s := by
    cases s with
    | nil => rfl
    | cons a t =>
      have := hh a (by simp)
      simp [List.dropWhile, this]
  unfold trimSpace
  rw [h1, List.rdropWhile_eq_self_iff]
  intro hne
  have := hl (s.getLast hne) (by simp [List.getLast?_eq_getLast _ hne])
  simp [this]

theorem trimSpace_digits (p : Str) (hd : p.all isDigit = true) : trimSpace p = p := by
  rw [List.all_eq_true] at hd
  apply trimSpace_eq_self_of_ends
  · intro c hc
    exact isDigit_not_space c (hd c (List.mem_of_mem_head? hc))
  · intro c hc
    exact isDigit_not_space c (hd c (List.mem_of_mem_getLast? hc))

theorem digitsFold_bound (s : Str) (acc : Nat) :
    s.foldl (fun n c => n * 10 + (c.toNat - 48)) acc + 1 ≤
      (acc + 1) * 10 ^ s.length ∨ ¬ (s.all isDigit = true) := by
  induction s generalizing acc with
  | nil => left; simp
  | cons c cs ih =>
    by_cases hd : (c :: cs).all isDigit = true
    · left
      simp only [List.all_cons, Bool.and_eq_true] at hd
      obtain ⟨hc, hcs⟩ := hd
      rcases ih (acc * 10 + (c.toNat - 48)) with h | h
      · simp only [List.foldl_cons, List.length_cons]
        simp only [isDigit, Bool.and_eq_true, decide_eq_true_eq] at hc
        have h9 : acc * 10 + (c.toNat - 48) + 1 ≤ (acc + 1) * 10 := by omega
        calc _ ≤ (acc * 10 + (c.toNat - 48) + 1) * 10 ^ cs.length := h
          _ ≤ ((acc + 1) * 10) * 10 ^ cs.length := Nat.mul_le_mul_right _ h9
          _ = (acc + 1) * 10 ^ (cs.length + 1) := by ring
      · exact absurd hcs h
    · right; exact hd

theorem digitsValue_lt (s : Str) (hd : s.all isDigit = true) : digitsValue s < 10 ^ s.length := by
  rcases digitsFold_bound s 0 with h | h
  · unfold digitsValue
    simp only [Nat.zero_add, Nat.one_mul] at h
    omega
  · exact absurd hd h

theorem parseSigned_digits (p : Str) (hne : p ≠ []) (hd : p.all isDigit = true)
    (hlen : p.length ≤ 5) : parseSigned p = some (digitsValue p : Int) := by
  cases p with
  | nil => exact absurd rfl hne
  | cons c cs =>
    have hc : isDigit c = true := by
      simp only [List.all_cons, Bool.and_eq_true] at hd
      exact hd.1
    have hm : c ≠ '-' := by
      intro e; subst e; revert hc; decide
    have hp : c ≠ '+' := by
      intro e; subst e; revert hc; decide
    have hv := digitsValue_lt (c :: cs) hd
    have h5 : 10 ^ (c :: cs).length ≤ 10 ^ 5 := Nat.pow_le_pow_right (by norm_num) hlen
    have hv2 : (digitsValue (c :: cs) : Int) < 2 ^ 63 := by
      have : digitsValue (c :: cs) < 10 ^ 5 := lt_of_lt_of_le hv h5
      have h3 : (digitsValue (c :: cs) : Int) < 10 ^ 5 := by exact_mod_cast this
      linarith
    have hv0 : -(2 ^ 63 : Int) ≤ (digitsValue (c :: cs) : Int) := by
      have : (0 : Int) ≤ (digitsValue (c :: cs) : Int) := Int.ofNat_nonneg _
      linarith
    have hd2 : ∀ x ∈ c :: cs, isDigit x = true := by
      rw [List.all_eq_true] at hd; exact hd
    have hv3 : digitsValue (c :: cs) < 9223372036854775808 := by
      have : digitsValue (c :: cs) < 10 ^ 5 := lt_of_lt_of_le hv h5
      omega
    have hv4 : -(9223372036854775808 : Int) ≤ (digitsValue (c :: cs) : Int) := by
      have : (0 : Int) ≤ (digitsValue (c :: cs) : Int) := Int.ofNat_nonneg _
      omega
    simp [parseSigned, hm, hp]
    exact ⟨⟨hc, fun x hx => hd2 x (List.mem_cons_of_mem _ hx)⟩, hv4, hv3⟩

theorem byteLen_digits (p : Str) (hd : p.all isDigit = true) : byteLen p = p.length := by
  induction p with
  | nil => rfl
  | cons c cs ih =>
    simp only [List.all_cons, Bool.and_eq_true] at hd
    have hc := hd.1
    simp only [isDigit, Bool.and_eq_true, decide_eq_true_eq] at hc
    have h1 : c.utf8Size = 1 := by
      have : c.val ≤ 127 := by
        rw [UInt32.le_def, BitVec.le_def]
        show c.toNat ≤ 127
        omega
      simp [Char.utf8Size, this]
    have := ih hd.2
    simp only [byteLen, List.map_cons, List.sum_cons, List.length_cons] at this ⊢
    omega

theorem portOf_digits (p : Str) (hne : p ≠ []) (hd : p.all isDigit = true)
    (hlen : p.length ≤ 5) : portOf p = some p := by
  unfold portOf
  simp only [trimSpace_digits p hd, atoi, parseSigned_digits p hne hd hlen,
    byteLen_digits p hd]
  simp [hne]
  omega

theorem portOf_blank (p : Str) (h : trimSpace p = []) : portOf p = some "22".toList := by
  unfold portOf
  simp [h]

theorem storeEmpty_load_iff (data : Str) :
    storeEmpty (loadConnections data) = true ↔ trimSpace data = [] := by
  unfold loadConnections
  constructor
  · intro h
    cases ht : trimSpace data with
    | nil => rfl
    | cons c r =>
      have hc := trimSpace_head_not_space data c r ht
      have hne : c ≠ '\n' := by
        intro e; subst e; revert hc; decide
      rw [ht, split_cons_ne '\n' c r hne] at h
      simp [storeEmpty] at h
  · intro h
    rw [h]
    rfl

theorem join_newline_append (ls : List Str) (h : ls ≠ []) :
    join ['\n'] ls ++ ['\n'] = (ls.map (fun l => l ++ ['\n'])).flatten := by
  induction ls with
  | nil => exact absurd rfl h
  | cons a rest ih =>
    cases rest with
    | nil => simp [join]
    | cons b rest2 =>
      rw [join_cons_of_ne_nil _ _ _ (by simp), List.map_cons, List.flatten_cons,
        ← ih (by simp)]
      simp

theorem deleteConnection_in_range (env : FileEnv) (file choiceLine : Str) (i : Nat)
    (hread : env.readOk = true) (hopen : env.openOk = true) (hwrite : env.writeOk = true)
    (hload : storeEmpty (loadConnections file) = false)
    (hchoice : choiceIndex choiceLine = (i : Int))
    (hi : i < (loadConnections file).length) :
    deleteConnection env file choiceLine =
      (.deleted, (((loadConnections file).eraseIdx i).map (fun l => l ++ ['\n'])).flatten) := by
  unfold deleteConnection
  simp only [hread, hopen, hwrite, hload, hchoice, Bool.not_true, Bool.false_eq_true, if_false]
  rw [if_neg (by omega)]
  simp only [Int.toNat_ofNat, ← List.eraseIdx_eq_take_drop_succ]
  by_cases hrem : ((loadConnections file).eraseIdx i).length > 0
  · rw [if_pos hrem, join_newline_append _ (by
      intro e; rw [e] at hrem; simp at hrem)]
  · rw [if_neg hrem]
    have : (loadConnections file).eraseIdx i = [] := by
      apply List.eq_nil_of_length_eq_zero
      omega
    rw [this]
    rfl

theorem deleteConnection_out_of_range (env : FileEnv) (file choiceLine : Str)
    (hread : env.readOk = true)
    (hload : storeEmpty (loadConnections file) = false)
    (hidx : choiceIndex choiceLine < 0 ∨
      ((loadConnections file).length : Int) ≤ choiceIndex choiceLine) :
    deleteConnection env file choiceLine = (.invalidSelection, file) := by
  unfold deleteConnection
  simp only [hread, hload, Bool.not_true, Bool.false_eq_true, if_false]
  rw [if_pos (by simpa using hidx)]

theorem deleteConnection_empty_store (env : FileEnv) (file choiceLine : Str)
    (hread : env.readOk = true)
    (hload : storeEmpty (loadConnections file) = true) :
    deleteConnection env file choiceLine = (.noConnections, file) := by
  unfold deleteConnection
  simp [hread, hload]

theorem trimSpace_sublist (s : Str) : (trimSpace s).Sublist s := by
  unfold trimSpace
  exact (List.rdropWhile_prefix isSpace _).sublist.trans (List.dropWhile_suffix isSpace).sublist

theorem trimSpace_append_space (b : Str) (w : Char) (hw : isSpace w = true) :
    trimSpace (b ++ [w]) = trimSpace b := by
  unfold trimSpace
  rw [List.dropWhile_append]
  by_cases he : (b.dropWhile isSpace).isEmpty = true
  · rw [if_pos he]
    have : b.dropWhile isSpace = [] := by simpa using he
    rw [this]
    simp [List.dropWhile, hw, List.rdropWhile_nil]
  · rw [if_neg he, List.rdropWhile_concat_pos _ _ _ hw]

theorem load_head (file : Str) (h : storeEmpty (loadConnections file) = false) :
    ∃ x r rest, loadConnections file = (x :: r) :: rest ∧ isSpace x = false := by
  have hne : trimSpace file ≠ [] := by
    intro e
    rw [(storeEmpty_load_iff file).mpr e] at h
    cases h
  cases ht : trimSpace file with
  | nil => exact absurd ht hne
  | cons c r =>
    have hc := trimSpace_head_not_space file c r ht
    have hnl : c ≠ '\n' := by
      intro e; subst e; revert hc; decide
    refine ⟨c, (split '\n' r).headD [], (split '\n' r).tail, ?_, hc⟩
    unfold loadConnections
    rw [ht, split_cons_ne '\n' c r hnl]

theorem load_lines_length_le (ls : List Str) (hne : ls ≠ []) (hnl : ∀ l ∈ ls, '\n' ∉ l) :
    (loadConnections ((ls.map (fun l => l ++ ['\n'])).flatten)).length ≤ ls.length := by
  rw [← join_newline_append ls hne]
  unfold loadConnections
  rw [trimSpace_append_space _ _ (by decide), length_split]
  have h1 := (trimSpace_sublist (join ['\n'] ls)).count_le '\n'
  have h2 := length_split '\n' (join ['\n'] ls)
  rw [split_join '\n' ls hne hnl] at h2
  omega

theorem load_lines_not_empty (x : Char) (r : Str) (rest : List Str) (hx : isSpace x = false) :
    storeEmpty (loadConnections ((((x :: r) :: rest).map (fun l => l ++ ['\n'])).flatten))
      = false := by
  rw [Bool.eq_false_iff]
  intro h
  rw [storeEmpty_load_iff, trimSpace_eq_nil_iff] at h
  have := h x (by simp)
  rw [hx] at this
  cases this

theorem addConnection_ok (env : FileEnv) (file nameLine userLine hostLine portLine : Str)
    (hopen : env.openOk = true) (hwrite : env.writeOk = true)
    (hn : trimSpace nameLine ≠ []) (hu : trimSpace userLine ≠ [])
    (hh : trimSpace hostLine ≠ [])
    (hp : portLine = [] ∨ (1 ≤ portLine.length ∧ portLine.length ≤ 5 ∧
      ∀ c ∈ portLine, isDigit c = true)) :
    addConnection env file nameLine userLine hostLine portLine =
      (.added, file ++ (trimSpace nameLine ++ ['|'] ++ trimSpace userLine ++ ['|'] ++
        trimSpace hostLine ++ ['|'] ++ (if portLine = [] then "22".toList else portLine)
        ++ ['\n'])) := by
  have hport : portOf portLine = some (if portLine = [] then "22".toList else portLine) := by
    rcases hp with hp | ⟨h1, h5, hd⟩
    · subst hp
      simp [portOf_blank [] rfl]
    · have hne : portLine ≠ [] := by
        intro e; subst e; simp at h1
      rw [if_neg hne]
      exact portOf_digits portLine hne (List.all_eq_true.mpr hd) h5
  unfold addConnection
  simp [hn, hu, hh, hport, hopen, hwrite]

/-- The line `addConnection` writes for a record. -/
theorem addConnection_record (env : FileEnv) (file : Str) (r : Record)
    (hopen : env.openOk = true) (hwrite : env.writeOk = true) (hr : r.wellFormed) :
    (addConnection env file r.name r.user r.host r.port).2 =
      file ++ ((r.name ++ '|' :: (r.user ++ '|' :: (r.host ++ '|' :: r.port))) ++ ['\n']) := by
  obtain ⟨⟨hn, hnt, _, _⟩, ⟨hu, hut, _, _⟩, ⟨hh, hht, _, _⟩, hp1, hp5, hpd⟩ := hr
  have hpne : r.port ≠ [] := by
    intro e; rw [e] at hp1; simp at hp1
  rw [addConnection_ok env file r.name r.user r.host r.port hopen hwrite
    (by rw [hnt]; exact hn) (by rw [hut]; exact hu) (by rw [hht]; exact hh)
    (Or.inr ⟨hp1, hp5, hpd⟩), hnt, hut, hht, if_neg hpne]
  simp

theorem addAll_eq (env : FileEnv) (file : Str) (rs : List Record)
    (hopen : env.openOk = true) (hwrite : env.writeOk = true)
    (hrs : ∀ r ∈ rs, r.wellFormed) :
    addAll env file rs = file ++
      ((rs.map (fun r => r.name ++ '|' :: (r.user ++ '|' :: (r.host ++ '|' :: r.port)))).map
        (fun l => l ++ ['\n'])).flatten := by
  induction rs generalizing file with
  | nil => simp [addAll]
  | cons r rest ih =>
    rw [addAll, addConnection_record env file r hopen hwrite (hrs r (by simp)),
      ih _ (fun q hq => hrs q (by simp [hq]))]
    simp

theorem split_record_line (r : Record) (hr : r.wellFormed) :
    split '|' (r.name ++ '|' :: (r.user ++ '|' :: (r.host ++ '|' :: r.port))) = r.fields := by
  obtain ⟨⟨_, _, hn, _⟩, ⟨_, _, hu, _⟩, ⟨_, _, hh, _⟩, _, _, hpd⟩ := hr
  have hp : '|' ∉ r.port := by
    intro hm
    have := hpd _ hm
    revert this
    decide
  rw [split_append_sep _ _ _ hn, split_append_sep _ _ _ hu, split_append_sep _ _ _ hh,
    split_no_sep _ _ hp]
  rfl

theorem record_line_no_newline (r : Record) (hr : r.wellFormed) :
    '\n' ∉ r.name ++ '|' :: (r.user ++ '|' :: (r.host ++ '|' :: r.port)) := by
  obtain ⟨⟨_, _, _, hn⟩, ⟨_, _, _, hu⟩, ⟨_, _, _, hh⟩, _, _, hpd⟩ := hr
  have hp : '\n' ∉ r.port := by
    intro hm
    have := hpd _ hm
    revert this
    decide
  have hb : ('\n' : Char) ≠ '|' := by decide
  simp [hn, hu, hh, hp, hb]

theorem join_ne_nil (sep a : Str) (rest : List Str) (ha : a ≠ []) :
    join sep (a :: rest) ≠ [] := by
  cases rest with
  | nil => simpa [join] using ha
  | cons b rest2 =>
    rw [join_cons_of_ne_nil _ _ _ (by simp)]
    simp [ha]

theorem join_head (sep a : Str) (rest : List Str) (ha : a ≠ []) :
    (join sep (a :: rest)).head? = a.head? := by
  cases rest with
  | nil => simp [join]
  | cons b rest2 =>
    rw [join_cons_of_ne_nil _ _ _ (by simp), List.append_assoc,
      List.head?_append_of_ne_nil _ ha]

theorem join_getLast (sep : Str) (ls : List Str) (hall : ∀ l ∈ ls, l ≠ []) (c : Char)
    (hc : c ∈ (join sep ls).getLast?) : ∃ l ∈ ls, c ∈ l.getLast? := by
  induction ls with
  | nil => simp [join] at hc
  | cons a rest ih =>
    cases rest with
    | nil =>
      simp only [join] at hc
      exact ⟨a, by simp, hc⟩
    | cons b rest2 =>
      rw [join_cons_of_ne_nil _ _ _ (by simp),
        List.getLast?_append_of_ne_nil _ (join_ne_nil sep b rest2 (hall b (by simp)))] at hc
      obtain ⟨l, hl, hcl⟩ := ih (fun l hl => hall l (by simp [hl])) hc
      exact ⟨l, by simp [List.mem_cons.mp hl], hcl⟩

theorem record_line_ends (r : Record) (hr : r.wellFormed) :
    r.name ++ '|' :: (r.user ++ '|' :: (r.host ++ '|' :: r.port)) ≠ [] ∧
    (∀ c ∈ (r.name ++ '|' :: (r.user ++ '|' :: (r.host ++ '|' :: r.port))).head?,
      isSpace c = false) ∧
    (∀ c ∈ (r.name ++ '|' :: (r.user ++ '|' :: (r.host ++ '|' :: r.port))).getLast?,
      isSpace c = false) := by
  obtain ⟨⟨hn, hnt, _, _⟩, _, _, hp1, _, hpd⟩ := hr
  have hpne : r.port ≠ [] := by
    intro e; rw [e] at hp1; simp at hp1
  refine ⟨by simp [hn], ?_, ?_⟩
  · intro c hc
    rw [List.head?_append_of_ne_nil _ hn] at hc
    cases hname : r.name with
    | nil => exact absurd hname hn
    | cons x t =>
      rw [hname] at hc hnt
      simp only [List.head?_cons, Option.mem_def, Option.some.injEq] at hc
      subst hc
      exact trimSpace_head_not_space _ _ _ hnt
  · intro c hc
    have e : r.name ++ '|' :: (r.user ++ '|' :: (r.host ++ '|' :: r.port)) =
        (r.name ++ '|' :: (r.user ++ '|' :: (r.host ++ ['|']))) ++ r.port := by simp
    rw [e, List.getLast?_append_of_ne_nil _ hpne] at hc
    exact isDigit_not_space c (hpd c (List.mem_of_mem_getLast? hc))

theorem load_record_lines (ls : List Str) (hne : ls ≠ []) (hnl : ∀ l ∈ ls, '\n' ∉ l)
    (hends : ∀ l ∈ ls, l ≠ [] ∧ (∀ c ∈ l.head?, isSpace c = false) ∧
      (∀ c ∈ l.getLast?, isSpace c = false)) :
    loadConnections ((ls.map (fun l => l ++ ['\n'])).flatten) = ls := by
  rw [← join_newline_append ls hne]
  unfold loadConnections
  rw [trimSpace_append_space _ _ (by decide)]
  have htrim : trimSpace (join ['\n'] ls) = join ['\n'] ls := by
    apply trimSpace_eq_self_of_ends
    · intro c hc
      cases ls with
      | nil => exact absurd rfl hne
      | cons a rest =>
        have ha := hends a (by simp)
        rw [join_head _ _ _ ha.1] at hc
        exact ha.2.1 c hc
    · intro c hc
      obtain ⟨l, hl, hcl⟩ := join_getLast ['\n'] ls (fun l hl => (hends l hl).1) c hc
      exact (hends l hl).2.2 c hcl
  rw [htrim, split_join '\n' ls hne hnl]

/-! ## The claims -/

/-- C4: an Add whose name, user or host is empty, or empty once the white
space around it is trimmed, is rejected with one of the validation messages
and leaves the content of the config file as it was, whatever the other inputs
and whatever the file system would have answered. -/
theorem addConnection_rejects_empty_field (env : FileEnv) (file nameLine userLine hostLine
    portLine : Str)
    (h : trimSpace nameLine = [] ∨ trimSpace userLine = [] ∨ trimSpace hostLine = []) :
    (addConnection env file nameLine userLine hostLine portLine).1.isValidationError = true ∧
    (addConnection env file nameLine userLine hostLine portLine).2 = file := by
  unfold addConnection
  by_cases hn : trimSpace nameLine = []
  · simp [hn, AddOutcome.isValidationError]
  · by_cases hu : trimSpace userLine = []
    · simp [hn, hu, AddOutcome.isValidationError]
    · have hh : trimSpace hostLine = [] := by
        rcases h with h | h | h
        · exact absurd h hn
        · exact absurd h hu
        · exact h
      simp [hn, hu, hh, AddOutcome.isValidationError]

theorem addConnection_rejects_empty_field_witness :
    (trimSpace "home".toList = [] ∨ trimSpace " \t".toList = [] ∨ trimSpace "h".toList = []) ∧
    (addConnection ⟨true, true, true⟩ "a|b|c|22\n".toList "home".toList " \t".toList
      "h".toList "80".toList).1.isValidationError = true ∧
    (addConnection ⟨true, true, true⟩ "a|b|c|22\n".toList "home".toList " \t".toList
      "h".toList "80".toList).2 = "a|b|c|22\n".toList :=
  ⟨by decide, addConnection_rejects_empty_field ⟨true, true, true⟩ "a|b|c|22\n".toList
    "home".toList " \t".toList "h".toList "80".toList (by decide)⟩

/-- C5, evaluated on the code: the port line `-22` passes the check of
`addConnection` (`strconv.Atoi` accepts a sign and the line has three bytes),
so the line `a|b|c|-22` is appended, whose port is neither `22` nor a string
of digits; the same holds for `+80`. -/
theorem addConnection_accepts_signed_port :
    addConnection ⟨true, true, true⟩ [] "a".toList "b".toList "c".toList "-22".toList
      = (.added, "a|b|c|-22\n".toList) ∧
    "-22".toList.all isDigit = false ∧
    portOf "+80".toList = some "+80".toList := by
  decide

/-- C6: when name, user and host are non-empty after trimming and the file can
be opened and written, `addConnection` appends to the config file exactly the
line `name|user|host|port` and a newline, the fields being the trimmed inputs
and the port being `22` for an empty port input and the input itself when it
is a string of one to five ASCII digits; the previous content stays as a
prefix, and the line holds no newline when the inputs hold none. -/
theorem addConnection_appends_line (env : FileEnv) (file nameLine userLine hostLine
    portLine : Str)
    (hopen : env.openOk = true) (hwrite : env.writeOk = true)
    (hn : trimSpace nameLine ≠ []) (hu : trimSpace userLine ≠ [])
    (hh : trimSpace hostLine ≠ [])
    (hp : portLine = [] ∨ (1 ≤ portLine.length ∧ portLine.length ≤ 5 ∧
      ∀ c ∈ portLine, isDigit c = true)) :
    addConnection env file nameLine userLine hostLine portLine =
      (.added, file ++ (trimSpace nameLine ++ ['|'] ++ trimSpace userLine ++ ['|'] ++
        trimSpace hostLine ++ ['|'] ++ (if portLine = [] then "22".toList else portLine)
        ++ ['\n'])) ∧
    ('\n' ∉ nameLine → '\n' ∉ userLine → '\n' ∉ hostLine →
      '\n' ∉ trimSpace nameLine ++ ['|'] ++ trimSpace userLine ++ ['|'] ++
        trimSpace hostLine ++ ['|'] ++ (if portLine = [] then "22".toList else portLine)) := by
  constructor
  · exact addConnection_ok env file nameLine userLine hostLine portLine hopen hwrite hn hu hh hp
  · intro h1 h2 h3 hmem
    have hpn : '\n' ∉ (if portLine = [] then "22".toList else portLine) := by
      rcases hp with hp | ⟨h1, _, hd⟩
      · subst hp
        decide
      · have hne : portLine ≠ [] := by
          intro e; subst e; simp at h1
        rw [if_neg hne]
        intro hm
        have := hd _ hm
        revert this
        decide
    simp only [List.mem_append, List.mem_singleton] at hmem
    rcases hmem with (((((hm | hm) | hm) | hm) | hm) | hm) | hm
    · exact h1 (trimSpace_subset _ hm)
    · revert hm; decide
    · exact h2 (trimSpace_subset _ hm)
    · revert hm; decide
    · exact h3 (trimSpace_subset _ hm)
    · revert hm; decide
    · exact hpn hm

theorem addConnection_appends_line_witness :
    addConnection ⟨true, true, true⟩ "a|b|c|80\n".toList "home".toList "alice".toList
        "10.0.0.5".toList [] =
      (.added, "a|b|c|80\nhome|alice|10.0.0.5|22\n".toList) := by
  have h := (addConnection_appends_line ⟨true, true, true⟩ "a|b|c|80\n".toList "home".toList
    "alice".toList "10.0.0.5".toList [] rfl rfl (by decide) (by decide) (by decide)
    (Or.inl rfl)).1
  rw [h]
  decide

/-- C7: the list view uses 3 columns for a width of at least 96, 2 columns for
a width from 64 to 95, and 1 column below 64 (negative widths included); so 2
columns at width 70, 1 column at width 50, and 2 columns at the fallback width
80 used when the terminal size cannot be read. -/
theorem numCols_by_width (w : Int) :
    numCols w = (if 96 ≤ w then 3 else if 64 ≤ w then 2 else 1) ∧
    numCols 70 = 2 ∧ numCols 50 = 1 ∧ termWidth none = 80 ∧ numCols (termWidth none) = 2 := by
  refine ⟨?_, by decide, by decide, rfl, by decide⟩
  unfold numCols colWidth
  norm_num

/-- C8: on a readable config file whose content is empty or white space only,
`listConnections` reports "No connections yet" and hands no row to the
renderer, whatever the terminal width is or whether it can be read. -/
theorem listConnections_empty_store (env : FileEnv) (file : Str) (size : Option Int)
    (hread : env.readOk = true) (hws : ∀ c ∈ file, isSpace c = true) :
    listConnections env file size = .noConnections ∧
    (listConnections env file size).rows = [] := by
  have h : storeEmpty (loadConnections file) = true :=
    (storeEmpty_load_iff file).mpr ((trimSpace_eq_nil_iff file).mpr hws)
  have : listConnections env file size = .noConnections := by
    unfold listConnections
    simp [hread, h]
  rw [this]
  exact ⟨rfl, rfl⟩

theorem listConnections_empty_store_witness :
    (∀ c ∈ " \n\t".toList, isSpace c = true) ∧
    listConnections ⟨true, false, false⟩ " \n\t".toList (some 120) = .noConnections ∧
    (listConnections ⟨true, false, false⟩ " \n\t".toList (some 120)).rows = [] :=
  ⟨by decide, listConnections_empty_store ⟨true, false, false⟩ " \n\t".toList (some 120) rfl
    (by decide)⟩

/-- C9, evaluated on the code: at 2024-01-02 03:04:05 the archive is
`ssh_config_backup_20240102_030405.tar.gz`; its timestamp has 15 characters
with an underscore between the date and the time of day, so it is not the
14-digit `20240102030405`. -/
theorem backupFile_timestamp_has_underscore :
    backupFile "/home/u".toList ⟨2024, 1, 2, 3, 4, 5⟩ =
      "/home/u/ssh_backup/ssh_config_backup_20240102_030405.tar.gz".toList ∧
    backupFile "/home/u".toList ⟨2024, 1, 2, 3, 4, 5⟩ ≠
      "/home/u/ssh_backup/ssh_config_backup_20240102030405.tar.gz".toList ∧
    formatTimestamp ⟨2024, 1, 2, 3, 4, 5⟩ = "20240102_030405".toList ∧
    (formatTimestamp ⟨2024, 1, 2, 3, 4, 5⟩).length = 15 := by
  decide

/-- C9 as amended: at every time whose fields are in their calendar ranges
(year at most 9999) the archive path is the backup directory joined with
`ssh_config_backup_<YYYYMMDD>_<HHMMSS>.tar.gz`: the four digits of the year,
two of the month, two of the day, an underscore, and two digits each of the
hour, the minute and the second; 15 characters, all digits but the ninth. -/
theorem backupFile_name (homeDir : Str) (t : Time) (ht : t.valid) :
    backupFile homeDir t = filepathJoin [backupDir homeDir,
      "ssh_config_backup_".toList ++
      [Char.ofNat (48 + t.year / 1000), Char.ofNat (48 + t.year / 100 % 10),
       Char.ofNat (48 + t.year / 10 % 10), Char.ofNat (48 + t.year % 10),
       Char.ofNat (48 + t.month / 10), Char.ofNat (48 + t.month % 10),
       Char.ofNat (48 + t.day / 10), Char.ofNat (48 + t.day % 10),
       '_',
       Char.ofNat (48 + t.hour / 10), Char.ofNat (48 + t.hour % 10),
       Char.ofNat (48 + t.minute / 10), Char.ofNat (48 + t.minute % 10),
       Char.ofNat (48 + t.second / 10), Char.ofNat (48 + t.second % 10)] ++
      ".tar.gz".toList] ∧
    (formatTimestamp t).length = 15 ∧
    (formatTimestamp t)[8]? = some '_' ∧
    (∀ i c, i ≠ 8 → (formatTimestamp t)[i]? = some c → isDigit c = true) := by
  obtain ⟨hy, hm1, hm, hd1, hd, hh, hmi, hs⟩ := ht
  have e1 : t.year / 100 / 10 = t.year / 1000 := by omega
  have e2 : t.year % 100 / 10 = t.year / 10 % 10 := by omega
  have e3 : t.year % 100 % 10 = t.year % 10 := by omega
  have hfmt : formatTimestamp t =
      [Char.ofNat (48 + t.year / 1000), Char.ofNat (48 + t.year / 100 % 10),
       Char.ofNat (48 + t.year / 10 % 10), Char.ofNat (48 + t.year % 10),
       Char.ofNat (48 + t.month / 10), Char.ofNat (48 + t.month % 10),
       Char.ofNat (48 + t.day / 10), Char.ofNat (48 + t.day % 10),
       '_',
       Char.ofNat (48 + t.hour / 10), Char.ofNat (48 + t.hour % 10),
       Char.ofNat (48 + t.minute / 10), Char.ofNat (48 + t.minute % 10),
       Char.ofNat (48 + t.second / 10), Char.ofNat (48 + t.second % 10)] := by
    have h4 : t.year < 10000 := by omega
    have h21 : t.month < 100 := by omega
    have h22 : t.day < 100 := by omega
    have h23 : t.hour < 100 := by omega
    have h24 : t.minute < 100 := by omega
    have h25 : t.second < 100 := by omega
    simp [formatTimestamp, appendInt, digitChar, h4, h21, h22, h23, h24, h25, e1, e2, e3]
  have hdig : ∀ k, k < 10 → isDigit (Char.ofNat (48 + k)) = true := by decide
  refine ⟨?_, ?_, ?_, ?_⟩
  · unfold backupFile
    rw [hfmt]
  · rw [hfmt]; rfl
  · rw [hfmt]; rfl
  · intro i c hi hc
    rw [hfmt] at hc
    have hlt : i < 15 := by
      by_contra hge
      rw [List.getElem?_eq_none (by simp; omega)] at hc
      cases hc
    have k10 : ∀ n : Nat, n % 10 < 10 := fun n => Nat.mod_lt _ (by norm_num)
    have y1 : t.year / 1000 < 10 := by omega
    have m1 : t.month / 10 < 10 := by omega
    have d1 : t.day / 10 < 10 := by omega
    have hh1 : t.hour / 10 < 10 := by omega
    have mi1 : t.minute / 10 < 10 := by omega
    have s1 : t.second / 10 < 10 := by omega
    interval_cases i <;> simp at hc <;> subst hc <;> first
      | exact absurd rfl hi
      | exact hdig _ (k10 _)
      | exact hdig _ y1
      | exact hdig _ m1
      | exact hdig _ d1
      | exact hdig _ hh1
      | exact hdig _ mi1
      | exact hdig _ s1

theorem backupFile_name_witness :
    (⟨2024, 12, 31, 23, 59, 58⟩ : Time).valid ∧
    backupFile "/home/u".toList ⟨2024, 12, 31, 23, 59, 58⟩ =
      "/home/u/ssh_backup/ssh_config_backup_20241231_235958.tar.gz".toList := by
  refine ⟨by decide, ?_⟩
  rw [(backupFile_name "/home/u".toList ⟨2024, 12, 31, 23, 59, 58⟩ (by decide)).1]
  decide

/-- C10: once the store is loaded non-empty and the agent is set up,
`connectToServer` answers "Invalid selection" and launches no client when the
index read from the choice is negative or not below the number of loaded
lines; when the index is in range and the line there has the fields name,
user, host and possibly more, the client is run with exactly the arguments
`-i <sshKey> -p <port> <user>@<host>`, the port being the fourth field, or
`22` when there are only three. -/
theorem connectToServer_by_position (homeDir : Str) (env : FileEnv) (agent : AgentEnv)
    (file choiceLine : Str) (sshOk : Bool)
    (hread : env.readOk = true)
    (hload : storeEmpty (loadConnections file) = false)
    (hagent : (startSSHAgent agent).1 = none) :
    ((choiceIndex choiceLine < 0 ∨
        ((loadConnections file).length : Int) ≤ choiceIndex choiceLine) →
      connectToServer homeDir env agent file choiceLine sshOk = .invalidSelection ∧
      (connectToServer homeDir env agent file choiceLine sshOk).launched = none) ∧
    (∀ (i : Nat) (line name user host : Str) (rest : List Str),
      choiceIndex choiceLine = (i : Int) → (loadConnections file)[i]? = some line →
      split '|' line = name :: user :: host :: rest →
      connectToServer homeDir env agent file choiceLine sshOk =
        .ran ["-i".toList, sshKey homeDir, "-p".toList, rest.headD "22".toList,
          user ++ ['@'] ++ host] sshOk) := by
  constructor
  · intro hidx
    have : connectToServer homeDir env agent file choiceLine sshOk = .invalidSelection := by
      unfold connectToServer
      simp only [hread, if_true, hload, Bool.false_eq_true, if_false, hagent]
      rw [if_pos]
      simpa using hidx
    rw [this]
    exact ⟨rfl, rfl⟩
  · intro i line name user host rest hi hline hsplit
    have hlt : i < (loadConnections file).length := by
      by_contra hge
      rw [List.getElem?_eq_none (by omega)] at hline
      cases hline
    have hget : (loadConnections file).getD i [] = line := by
      rw [List.getD_eq_getElem?_getD, hline]
      rfl
    unfold connectToServer
    simp only [hread, if_true, hload, Bool.false_eq_true, if_false, hagent, hi]
    rw [if_neg (by omega)]
    simp only [Int.toNat_ofNat, hget, hsplit]
    cases rest with
    | nil => simp
    | cons port more => simp

theorem connectToServer_by_position_witness :
    connectToServer "/home/u".toList ⟨true, true, true⟩ ⟨"/tmp/agent.1".toList, .inr [], none⟩
        "home|alice|10.0.0.5|2222\nlab|bob|lab.example\n".toList "1".toList true =
      .ran ["-i".toList, "/home/u/.ssh/id_rsa".toList, "-p".toList, "22".toList,
        "bob@lab.example".toList] true ∧
    connectToServer "/home/u".toList ⟨true, true, true⟩ ⟨"/tmp/agent.1".toList, .inr [], none⟩
        "home|alice|10.0.0.5|2222\nlab|bob|lab.example\n".toList "2".toList true =
      .invalidSelection := by
  constructor
  · rw [(connectToServer_by_position "/home/u".toList ⟨true, true, true⟩
      ⟨"/tmp/agent.1".toList, .inr [], none⟩
      "home|alice|10.0.0.5|2222\nlab|bob|lab.example\n".toList "1".toList true rfl
      (by decide) (by decide)).2 1 "lab|bob|lab.example".toList "lab".toList "bob".toList
      "lab.example".toList [] (by decide) (by decide) (by decide)]
    decide
  · exact ((connectToServer_by_position "/home/u".toList ⟨true, true, true⟩
      ⟨"/tmp/agent.1".toList, .inr [], none⟩
      "home|alice|10.0.0.5|2222\nlab|bob|lab.example\n".toList "2".toList true rfl
      (by decide) (by decide)).1 (by decide)).1

/-- C2: when the store loads as `n ≥ 1` lines and the choice reads as an index
`i < n` (file readable and writable), `deleteConnection` reports success and
rewrites the config file as the `n - 1` lines other than the one at position
`i`, in their order, each followed by a newline; the file is empty when
`n = 1`; and when the lines are pairwise distinct the deleted line is not
among the remaining ones. -/
theorem deleteConnection_removes_position (env : FileEnv) (file choiceLine : Str) (i : Nat)
    (hread : env.readOk = true) (hopen : env.openOk = true) (hwrite : env.writeOk = true)
    (hload : storeEmpty (loadConnections file) = false)
    (hchoice : choiceIndex choiceLine = (i : Int))
    (hi : i < (loadConnections file).length) :
    deleteConnection env file choiceLine =
      (.deleted, (((loadConnections file).eraseIdx i).map (fun l => l ++ ['\n'])).flatten) ∧
    ((loadConnections file).eraseIdx i).length = (loadConnections file).length - 1 ∧
    ((loadConnections file).length = 1 → (deleteConnection env file choiceLine).2 = []) ∧
    ((loadConnections file).Nodup → ∀ line, (loadConnections file)[i]? = some line →
      line ∉ (loadConnections file).eraseIdx i) := by
  have hdel := deleteConnection_in_range env file choiceLine i hread hopen hwrite hload hchoice hi
  refine ⟨hdel, ?_, ?_, ?_⟩
  · rw [List.length_eraseIdx, if_pos hi]
  · intro h1
    rw [hdel]
    have : (loadConnections file).eraseIdx i = [] := by
      apply List.eq_nil_of_length_eq_zero
      rw [List.length_eraseIdx, if_pos hi, h1]
    simp [this]
  · intro hnd line hline hmem
    obtain ⟨_, hl⟩ := List.getElem?_eq_some.mp hline
    obtain ⟨j, hj, hne, hjl⟩ := List.mem_eraseIdx_iff_getElem.mp hmem
    rw [← hl] at hjl
    exact hne ((hnd.getElem_inj_iff).mp hjl)

theorem deleteConnection_removes_position_witness :
    deleteConnection ⟨true, true, true⟩
        "r0|a|h0|22\nr1|b|h1|80\nr2|c|h2|2222\nr3|d|h3|22\n".toList "1".toList =
      (.deleted, "r0|a|h0|22\nr2|c|h2|2222\nr3|d|h3|22\n".toList) := by
  rw [(deleteConnection_removes_position ⟨true, true, true⟩
    "r0|a|h0|22\nr1|b|h1|80\nr2|c|h2|2222\nr3|d|h3|22\n".toList "1".toList 1 rfl rfl rfl
    (by decide) (by decide) (by decide)).1]
  decide

/-- C3, evaluated on the code: on an empty config file every index is out of
range, yet `deleteConnection` answers "No connections to delete", not
"Invalid selection"; and after the only record of a store is deleted at index
0, deleting index 0 again gives that same answer, not the index error. -/
theorem deleteConnection_empty_store_is_not_index_error :
    loadRecords [] = [] ∧
    ¬ (0 ≤ choiceIndex "5".toList ∧
        choiceIndex "5".toList < ((loadConnections []).length : Int)) ∧
    deleteConnection ⟨true, true, true⟩ [] "5".toList = (.noConnections, []) ∧
    (deleteConnection ⟨true, true, true⟩ [] "5".toList).1 ≠ .invalidSelection ∧
    deleteConnection ⟨true, true, true⟩ "a|b|c|22\n".toList "0".toList = (.deleted, []) ∧
    (deleteConnection ⟨true, true, true⟩
      (deleteConnection ⟨true, true, true⟩ "a|b|c|22\n".toList "0".toList).2 "0".toList).1
      ≠ .invalidSelection := by
  decide

/-- C3 as amended: on a readable config file that is not empty (nor white
space only), every choice whose index is negative or not below the number of
loaded lines, one that does not parse included, gets "Invalid selection" and
the file stays as it was; on an empty or white-space-only file the answer is
"No connections to delete" and the file stays as it was; and for every config
of at least two lines, deleting the last index and then the same index again
gets "Invalid selection" the second time and leaves the file as the first
delete left it. -/
theorem deleteConnection_rejects_out_of_range (env : FileEnv) (file choiceLine : Str)
    (hread : env.readOk = true) :
    (storeEmpty (loadConnections file) = false →
      (choiceIndex choiceLine < 0 ∨
        ((loadConnections file).length : Int) ≤ choiceIndex choiceLine) →
      deleteConnection env file choiceLine = (.invalidSelection, file)) ∧
    ((∀ c ∈ file, isSpace c = true) →
      deleteConnection env file choiceLine = (.noConnections, file)) ∧
    (env.openOk = true → env.writeOk = true → 2 ≤ (loadConnections file).length →
      choiceIndex choiceLine = (((loadConnections file).length - 1 : Nat) : Int) →
      (deleteConnection env file choiceLine).1 = .deleted ∧
      deleteConnection env (deleteConnection env file choiceLine).2 choiceLine =
        (.invalidSelection, (deleteConnection env file choiceLine).2)) := by
  refine ⟨fun hload hidx => deleteConnection_out_of_range env file choiceLine hread hload hidx,
    fun hws => deleteConnection_empty_store env file choiceLine hread
      ((storeEmpty_load_iff file).mpr ((trimSpace_eq_nil_iff file).mpr hws)), ?_⟩
  intro hopen hwrite h2 hchoice
  have hload : storeEmpty (loadConnections file) = false := by
    rw [Bool.eq_false_iff]
    intro h
    rw [storeEmpty_load_iff] at h
    unfold loadConnections at h2
    rw [h] at h2
    simp [split] at h2
  obtain ⟨x, r, rest, hconns, hx⟩ := load_head file hload
  have hdel := deleteConnection_in_range env file choiceLine ((loadConnections file).length - 1)
    hread hopen hwrite hload hchoice (by omega)
  have hnl : ∀ l ∈ (loadConnections file).eraseIdx ((loadConnections file).length - 1),
      '\n' ∉ l := by
    intro l hl
    exact not_mem_of_mem_split '\n' _ l ((List.eraseIdx_subset _ _) hl)
  have hlen : ((loadConnections file).eraseIdx ((loadConnections file).length - 1)).length
      = (loadConnections file).length - 1 := by
    rw [List.length_eraseIdx, if_pos (by omega)]
  have hne : (loadConnections file).eraseIdx ((loadConnections file).length - 1) ≠ [] := by
    intro e
    rw [e] at hlen
    simp at hlen
    omega
  have hle := load_lines_length_le _ hne hnl
  have hnot : storeEmpty (loadConnections
      ((((loadConnections file).eraseIdx ((loadConnections file).length - 1)).map
        (fun l => l ++ ['\n'])).flatten)) = false := by
    have herase : (loadConnections file).eraseIdx ((loadConnections file).length - 1)
        = (x :: r) :: rest.eraseIdx (rest.length - 1) := by
      rw [hconns] at h2 ⊢
      simp only [List.length_cons] at h2 ⊢
      have : rest.length + 1 - 1 = (rest.length - 1) + 1 := by omega
      rw [this, List.eraseIdx_cons_succ]
    rw [herase]
    exact load_lines_not_empty x r _ hx
  rw [hdel]
  refine ⟨rfl, ?_⟩
  apply deleteConnection_out_of_range env _ choiceLine hread hnot
  right
  rw [hchoice]
  have := hle
  rw [hlen] at this
  exact_mod_cast this

theorem deleteConnection_rejects_out_of_range_witness :
    deleteConnection ⟨true, true, true⟩ "a|b|c|22\nd|e|f|80\n".toList "x".toList =
      (.invalidSelection, "a|b|c|22\nd|e|f|80\n".toList) ∧
    deleteConnection ⟨true, true, true⟩
      (deleteConnection ⟨true, true, true⟩ "a|b|c|22\nd|e|f|80\n".toList "1".toList).2
      "1".toList =
      (.invalidSelection,
        (deleteConnection ⟨true, true, true⟩ "a|b|c|22\nd|e|f|80\n".toList "1".toList).2) :=
  ⟨(deleteConnection_rejects_out_of_range ⟨true, true, true⟩ "a|b|c|22\nd|e|f|80\n".toList
      "x".toList rfl).1 (by decide) (by decide),
   ((deleteConnection_rejects_out_of_range ⟨true, true, true⟩ "a|b|c|22\nd|e|f|80\n".toList
      "1".toList rfl).2.2 rfl rfl (by decide) (by decide)).2⟩

/-- C1: starting from an empty config file, adding one by one any records whose
name, user and host are non-empty, already trimmed and free of `|` and of
newlines, and whose port is one to five ASCII digits (file writable), and then
loading the file (trim the content, split on newlines, split each line on `|`)
gives exactly these records, in the order they were added, each as its four
fields; with no record added the loaders report the empty store. -/
theorem add_then_load_round_trip (env : FileEnv) (rs : List Record)
    (hopen : env.openOk = true) (hwrite : env.writeOk = true)
    (hrs : ∀ r ∈ rs, r.wellFormed) :
    loadRecords (addAll env [] rs) = rs.map Record.fields ∧
    (loadRecords (addAll env [] rs)).length = rs.length ∧
    (rs ≠ [] → storeEmpty (loadConnections (addAll env [] rs)) = false ∧
      (loadConnections (addAll env [] rs)).map (split '|') = rs.map Record.fields) := by
  have hmain : loadRecords (addAll env [] rs) = rs.map Record.fields ∧
      (rs ≠ [] → storeEmpty (loadConnections (addAll env [] rs)) = false ∧
        (loadConnections (addAll env [] rs)).map (split '|') = rs.map Record.fields) := by
    cases hcase : rs with
    | nil =>
      refine ⟨?_, fun h => absurd rfl h⟩
      simp only [addAll, List.map_nil]
      decide
    | cons r0 rest =>
      rw [← hcase]
      have hne : rs ≠ [] := by rw [hcase]; simp
      have hlines : loadConnections (addAll env [] rs) =
          rs.map (fun r => r.name ++ '|' :: (r.user ++ '|' :: (r.host ++ '|' :: r.port))) := by
        rw [addAll_eq env [] rs hopen hwrite hrs, List.nil_append]
        apply load_record_lines
        · simpa using hne
        · intro l hl
          obtain ⟨r, hr, rfl⟩ := List.mem_map.mp hl
          exact record_line_no_newline r (hrs r hr)
        · intro l hl
          obtain ⟨r, hr, rfl⟩ := List.mem_map.mp hl
          exact record_line_ends r (hrs r hr)
      have hfields : (loadConnections (addAll env [] rs)).map (split '|') =
          rs.map Record.fields := by
        rw [hlines, List.map_map]
        apply List.map_congr_left
        intro r hr
        exact split_record_line r (hrs r hr)
      have hstore : storeEmpty (loadConnections (addAll env [] rs)) = false := by
        rw [hlines, hcase]
        have := (record_line_ends r0 (hrs r0 (by rw [hcase]; simp))).1
        cases hl : r0.name ++ '|' :: (r0.user ++ '|' :: (r0.host ++ '|' :: r0.port)) with
        | nil => exact absurd hl this
        | cons x t => simp [storeEmpty, hl]
      refine ⟨?_, fun _ => ⟨hstore, hfields⟩⟩
      unfold loadRecords
      rw [hstore]
      simpa using hfields
  refine ⟨hmain.1, ?_, hmain.2⟩
  rw [hmain.1, List.length_map]

theorem add_then_load_round_trip_witness :
    (∀ r ∈ [(⟨"home".toList, "alice".toList, "10.0.0.5".toList, "22".toList⟩ : Record),
        ⟨"lab".toList, "bob".toList, "lab.example".toList, "2222".toList⟩], r.wellFormed) ∧
    loadRecords (addAll ⟨true, true, true⟩ []
      [⟨"home".toList, "alice".toList, "10.0.0.5".toList, "22".toList⟩,
       ⟨"lab".toList, "bob".toList, "lab.example".toList, "2222".toList⟩]) =
      [["home".toList, "alice".toList, "10.0.0.5".toList, "22".toList],
       ["lab".toList, "bob".toList, "lab.example".toList, "2222".toList]] :=
  ⟨by decide, (add_then_load_round_trip ⟨true, true, true⟩
      [⟨"home".toList, "alice".toList, "10.0.0.5".toList, "22".toList⟩,
       ⟨"lab".toList, "bob".toList, "lab.example".toList, "2222".toList⟩] rfl rfl
      (by decide)).1⟩

end Hmpssh
